import Mathlib

/-!
Verification of the `hurst_hockey` ETL scripts: a shallow embedding of
`db_loader.py`, `models.py`, `init.py`, `scrape_bios_playwright.py` and
`scrape_bios_requests.py`, with theorems settling the specification claims
about CSV coercion, link discovery, profile extraction, text normalization
and persistence.

Strings are modelled as Lean `String` / `List Char`; Python `None`-able
values as `Option`; CSV rows (as produced by `csv.DictReader`) as ordered
association lists from header name to optional cell text.
-/

namespace HurstHockey

/-- The set of characters Python's `str.isspace` (hence `str.strip()` and
`str.split()` with no arguments) treats as whitespace, restricted to the
code points that can occur here; it includes the non-breaking space. -/
def pyIsSpace (c : Char) : Bool :=
  c = ' ' || c = '\t' || c = '\n' || c = '\r' ||
  c = '\u000b' || c = '\u000c' ||
  c = '\u001c' || c = '\u001d' || c = '\u001e' || c = '\u001f' ||
  c = '\u0085' || c = ' ' || c = ' ' ||
  c = ' ' || c = ' ' || c = ' ' || c = ' ' ||
  c = ' ' || c = ' ' || c = ' ' || c = ' ' ||
  c = ' ' || c = ' ' || c = ' ' ||
  c = ' ' || c = ' ' || c = ' ' || c = ' ' ||
  c = '　'

/-- Python `str.strip()` on a character list: drop whitespace from both ends. -/
def pyStripL (l : List Char) : List Char :=
  ((l.dropWhile pyIsSpace).reverse.dropWhile pyIsSpace).reverse

/-- Python `str.strip()`. -/
def pyStrip (s : String) : String :=
  String.mk (pyStripL s.data)

/-- Worker for Python `str.split()` with no arguments: `acc` holds the
characters of the token currently being read, in reverse. -/
def pySplitAux : List Char → List Char → List (List Char)
  | [], [] => []
  | [], acc => [acc.reverse]
  | c :: cs, acc =>
    if pyIsSpace c then
      if acc = [] then pySplitAux cs [] else acc.reverse :: pySplitAux cs []
    else pySplitAux cs (c :: acc)

/-- Python `str.split()` with no arguments: maximal runs of non-whitespace. -/
def pySplitL (l : List Char) : List (List Char) :=
  pySplitAux l []

/-- Python `" ".join(tokens)` on character lists. -/
def joinSp : List (List Char) → List Char
  | [] => []
  | [t] => t
  | t :: ts => t ++ ' ' :: joinSp ts

/-- Python `s.replace("\xa0", " ")`. -/
def pyReplaceNbsp (l : List Char) : List Char :=
  l.map fun c => if c = ' ' then ' ' else c

/-- `normalize` from `scrape_bios_playwright.py`:
`" ".join(s.replace("\xa0", " ").split()).strip()`. -/
def normalize (s : String) : String :=
  String.mk (pyStripL (joinSp (pySplitL (pyReplaceNbsp s.data))))

/-- `normalize` from `scrape_bios_requests.py`: identical except for an
initial `if not s: return ""` guard. -/
def normalizeRQ (s : String) : String :=
  if s = "" then "" else normalize s

/-- Python `str.split()` at the `String` level. -/
def pySplitStr (s : String) : List String :=
  (pySplitL s.data).map String.mk

/-! ## Python `int()` on strings

`int(value)` strips surrounding whitespace, accepts an optional sign and a
nonempty digit sequence in which single underscores may separate digits;
anything else raises, which `_coerce_int` turns into `None`. -/

/-- Decimal value of an ASCII digit. -/
def digitVal? (c : Char) : Option Nat :=
  if c.isDigit then some (c.toNat - '0'.toNat) else none

/-- Digits after the first one: plain digits, with single underscores
allowed only between digits. -/
def parseUDigits : List Char → Nat → Option Nat
  | [], acc => some acc
  | c :: rest, acc =>
    if c = '_' then
      match rest with
      | [] => none
      | d :: rest₂ =>
        match digitVal? d with
        | some v => parseUDigits rest₂ (acc * 10 + v)
        | none => none
    else
      match digitVal? c with
      | some v => parseUDigits rest (acc * 10 + v)
      | none => none

/-- An unsigned Python integer literal body (after any sign). -/
def pyIntCore (l : List Char) : Option Nat :=
  match l with
  | [] => none
  | c :: rest =>
    match digitVal? c with
    | some v => parseUDigits rest v
    | none => none

/-- Python `int(s)` for a string argument: `some n` on success, `none` when
`int` would raise `ValueError`. -/
def pyInt (s : String) : Option Int :=
  match pyStripL s.data with
  | '+' :: rest => (pyIntCore rest).map Int.ofNat
  | '-' :: rest => (pyIntCore rest).map fun n => -(n : Int)
  | rest => (pyIntCore rest).map Int.ofNat

/-! ## Python `float()` recognition

Only parse success/failure of `float(value)` is observable in the claims
(`SH_PCT` is never compared numerically), so the embedding records whether
the literal is accepted, keeping the accepted source text. -/

/-- Consume `(digit | _ digit)*` greedily, returning the rest. -/
def digitsUCont : List Char → List Char
  | [] => []
  | '_' :: d :: rest => if d.isDigit then digitsUCont rest else '_' :: d :: rest
  | c :: rest => if c.isDigit then digitsUCont rest else c :: rest

/-- Consume `digit (digit | _ digit)*`; `none` when no leading digit. -/
def digitsU (l : List Char) : Option (List Char) :=
  match l with
  | c :: rest => if c.isDigit then some (digitsUCont rest) else none
  | [] => none

/-- Exponent suffix digits with optional sign, consuming the whole rest. -/
def expDigits (l : List Char) : Bool :=
  match l with
  | '+' :: r => digitsU r = some []
  | '-' :: r => digitsU r = some []
  | r => digitsU r = some []

/-- Optional exponent part, consuming the whole rest. -/
def expPart (l : List Char) : Bool :=
  match l with
  | [] => true
  | c :: rest => if c = 'e' || c = 'E' then expDigits rest else false

/-- Body of a Python float literal after the optional sign. -/
def pyFloatBody (l : List Char) : Bool :=
  let low := l.map Char.toLower
  if low = "inf".data || low = "infinity".data || low = "nan".data then true
  else
    match digitsU l with
    | some rest =>
      match rest with
      | '.' :: rest₂ =>
        match digitsU rest₂ with
        | some rest₃ => expPart rest₃
        | none => expPart rest₂
      | _ => expPart rest
    | none =>
      match l with
      | '.' :: rest₂ =>
        match digitsU rest₂ with
        | some rest₃ => expPart rest₃
        | none => false
      | _ => false

/-- Whether Python `float(s)` accepts `s`. -/
def pyFloatOk (s : String) : Bool :=
  match pyStripL s.data with
  | '+' :: rest => pyFloatBody rest
  | '-' :: rest => pyFloatBody rest
  | rest => pyFloatBody rest

/-! ## `db_loader.py`: CSV rows and coercion

A `csv.DictReader` row is an ordered mapping from header name to cell; a
row shorter than the header fills the tail with `None` (`restval`), hence
cells are `Option String`. Header names within one row are distinct
because the row is a Python dict. -/

/-- One CSV row as produced by `csv.DictReader`. -/
abbrev Row : Type := List (String × Option String)

/-- Python `row.get(k, dflt)`. -/
def rowGet (row : Row) (k : String) (dflt : Option String) : Option String :=
  match List.lookup k row with
  | some v => v
  | none => dflt

/-- Python `(v or "")` for an optional string `v`: `None` and `""` are both
falsy and give `""`. -/
def pyOrEmpty (v : Option String) : String :=
  match v with
  | some s => if s = "" then "" else s
  | none => ""

/-- `_coerce_int` from `db_loader.py`: `int(value)` with every exception
(including `TypeError` on `None`) turned into `None`. -/
def coerce_int (v : Option String) : Option Int :=
  match v with
  | some s => pyInt s
  | none => none

/-- `_coerce_float` from `db_loader.py`, observed through parse success:
`some` of the accepted literal, `None` when `float(value)` would raise.
The IEEE value itself is never inspected by any claim. -/
def coerce_float (v : Option String) : Option String :=
  match v with
  | some s => if pyFloatOk s then some s else none
  | none => none

/-- The `Bio` model from `models.py` (field types as declared there;
`FirstName`/`LastName` are the non-optional composite primary key). -/
structure Bio where
  Number : Option Int
  Player : Option String
  FirstName : String
  LastName : String
  Position : Option String
  Height : Option String
  Weight : Option String
  Class : Option String
  Hometown : Option String
  HighSchool : Option String
deriving Repr, DecidableEq

/-- The row-to-`Bio` body shared verbatim by `make_bio_instances` and
`load_bios` in `db_loader.py`. -/
def make_bio_instance (row : Row) : Bio where
  Number := coerce_int (rowGet row "Number" (some ""))
  Player := some (pyStrip (pyOrEmpty (rowGet row "Player" none)))
  FirstName := pyStrip (pyOrEmpty (rowGet row "FirstName" none))
  LastName := pyStrip (pyOrEmpty (rowGet row "LastName" none))
  Position := some (pyStrip (pyOrEmpty (rowGet row "Position" none)))
  Height := some (pyStrip (pyOrEmpty (rowGet row "Height" none)))
  Weight := some (pyStrip (pyOrEmpty (rowGet row "Weight" none)))
  Class := some (pyStrip (pyOrEmpty (rowGet row "Class" none)))
  Hometown := some (pyStrip (pyOrEmpty (rowGet row "Hometown" none)))
  HighSchool := some (pyStrip (pyOrEmpty (rowGet row "HighSchool" none)))

/-- `make_bio_instances` from `db_loader.py`: one `Bio` appended per row. -/
def make_bio_instances (rows : List Row) : List Bio :=
  rows.map make_bio_instance

/-- A value placed into the keyword dict `kw` of the stats pass: a parsed
integer, a parsed float, or a stripped string. -/
inductive FieldVal where
  | intF : Option Int → FieldVal
  | floatF : Option String → FieldVal
  | strF : String → FieldVal
deriving Repr, DecidableEq

/-- Python dict assignment `m[k] = v`: overwrite in place, else append. -/
def dictSet : List (String × FieldVal) → String → FieldVal → List (String × FieldVal)
  | [], k, v => [(k, v)]
  | (k₀, v₀) :: rest, k, v =>
    if k₀ = k then (k₀, v) :: rest else (k₀, v₀) :: dictSet rest k v

/-- Python dict read `m.get(k)`. -/
def dictGet (m : List (String × FieldVal)) (k : String) : Option FieldVal :=
  List.lookup k m

/-- The `int_fields` set of `make_stats_instances` / `load_stats`. -/
def int_fields : List String :=
  ["GP", "G", "A", "PTS", "SH", "plus_minus", "PPG", "SHG", "FG", "GWG",
   "GTG", "OTG", "HTG", "UAG", "MIN", "MAJ", "OTH", "BLK", "Number"]

/-- One iteration of the `for key, val in row.items()` loop of
`make_stats_instances` (identical in `load_stats`). -/
def statsStep (kw : List (String × FieldVal)) (item : String × Option String) :
    List (String × FieldVal) :=
  let key := item.1
  let val := item.2
  if key = "Number" ∨ key = "FirstName" ∨ key = "LastName" then kw
  else if key = "PN-PIM" then dictSet kw "PN_PIM" (.strF (pyStrip (pyOrEmpty val)))
  else if key ∈ int_fields then dictSet kw key (.intF (coerce_int val))
  else if key = "SH_PCT" then dictSet kw key (.floatF (coerce_float val))
  else dictSet kw key (.strF (pyStrip (pyOrEmpty val)))

/-- The keyword dict `kw` built for a stats row by `make_stats_instances`
(and `load_stats`): the three direct mappings, then the item loop.
`Stats(**kw)` materializes this dict; a declared field absent from it keeps
the model default `None` (`models.py`). -/
def make_stats_kw (row : Row) : List (String × FieldVal) :=
  let kw : List (String × FieldVal) :=
    [("Number", .intF (coerce_int (rowGet row "Number" (some ""))))]
  let kw := dictSet kw "FirstName" (.strF (pyStrip (pyOrEmpty (rowGet row "FirstName" none))))
  let kw := dictSet kw "LastName" (.strF (pyStrip (pyOrEmpty (rowGet row "LastName" none))))
  row.foldl statsStep kw

/-- `make_stats_instances` from `db_loader.py`: one record (keyword dict)
appended per CSV row. -/
def make_stats_instances (rows : List Row) : List (List (String × FieldVal)) :=
  rows.map make_stats_kw

/-- The value an integer-typed `Stats` field receives: the keyword value
when the dict supplies one, otherwise the model default `None`. -/
def statsIntValue (kw : List (String × FieldVal)) (k : String) : Option Int :=
  match dictGet kw k with
  | some (.intF v) => v
  | _ => none

/-! ## The scrapers: profile extraction

Both scrapers see a profile page through the same three selector results:
the jersey-number element's text, the name element (its `span` children's
texts and its own text), and the `dt`/`dd` text pairs of the field `dl`
blocks. A profile document is modelled by exactly those observations. -/

/-- The `span.sidearm-roster-player-name` element: texts of its `span`
children (in document order) and its own full text. -/
structure NameEl where
  spanTexts : List String
  ownText : String
deriving Repr, DecidableEq

/-- One `dl` block under `.sidearm-roster-player-fields`: text of its first
`dt` and first `dd`, when present. -/
structure DlPair where
  dt : Option String
  dd : Option String
deriving Repr, DecidableEq

/-- A profile page as observed by `extract_from_profile`. -/
structure ProfileDoc where
  jerseyText : Option String
  nameEl : Option NameEl
  dls : List DlPair
deriving Repr, DecidableEq

/-- The `data` dict of `extract_from_profile`: the ten CSV headers, every
field defaulting to the empty string. -/
structure ProfileData where
  Number : String := ""
  Player : String := ""
  FirstName : String := ""
  LastName : String := ""
  Position : String := ""
  Height : String := ""
  Weight : String := ""
  Class : String := ""
  Hometown : String := ""
  HighSchool : String := ""
deriving Repr, DecidableEq

/-- Python `key.rstrip(":")`. -/
def rstripColons (s : String) : String :=
  String.mk ((s.data.reverse.dropWhile (fun c => c == ':')).reverse)

/-- Python `str.lower()` (ASCII range, which covers every compared label). -/
def lowerStr (s : String) : String :=
  String.mk (s.data.map Char.toLower)

/-- Python `s.startswith(pre)`. -/
def startsWithStr (s pre : String) : Bool :=
  pre.data.isPrefixOf s.data

/-- Python `" ".join(parts)` on strings. -/
def joinWithSpace : List String → String
  | [] => ""
  | [s] => s
  | s :: rest => s ++ " " ++ joinWithSpace rest

/-- The label/value assignment for one `dl` block — the `dt`/`dd` if-chain,
written identically in `scrape_bios_playwright.py` (lines 64-82) and
`scrape_bios_requests.py` (lines 84-103). -/
def applyDl (d : ProfileData) (p : DlPair) : ProfileData :=
  match p.dt, p.dd with
  | some dtText, some ddText =>
    let key := rstripColons (normalize dtText)
    let val := normalize ddText
    let lk := lowerStr key
    if startsWithStr lk "position" then { d with Position := val }
    else if startsWithStr lk "height" then { d with Height := val }
    else if startsWithStr lk "weight" then { d with Weight := val }
    else if startsWithStr lk "class" then { d with Class := val }
    else if startsWithStr lk "hometown" then { d with Hometown := val }
    else if startsWithStr lk "high school" || startsWithStr lk "highschool" then
      { d with HighSchool := val }
    else d
  | _, _ => d

/-- `extract_from_profile` from `scrape_bios_playwright.py`. The image
lookup (lines 57-60) binds a local and assigns no field, so it is omitted. -/
def extract_from_profile_pw (doc : ProfileDoc) : ProfileData :=
  let d : ProfileData := {}
  let d := match doc.jerseyText with
    | some t => { d with Number := normalize t }
    | none => d
  let d := match doc.nameEl with
    | some ne =>
      let parts := ne.spanTexts.map normalize
      let full := pyStrip (joinWithSpace parts)
      let d := { d with Player := full }
      match parts with
      | [] => d
      | p :: rest => { d with FirstName := p, LastName := List.getLastD rest p }
    | none => d
  doc.dls.foldl applyDl d

/-- `extract_from_profile` from `scrape_bios_requests.py`: identical except
that with no `span` children the name parts fall back to splitting the
name element's own normalized text. -/
def extract_from_profile_rq (doc : ProfileDoc) : ProfileData :=
  let d : ProfileData := {}
  let d := match doc.jerseyText with
    | some t => { d with Number := normalize t }
    | none => d
  let d := match doc.nameEl with
    | some ne =>
      let parts₀ := ne.spanTexts.map normalize
      let full := if parts₀ = [] then normalize ne.ownText
        else pyStrip (joinWithSpace parts₀)
      let parts := if parts₀ = [] then pySplitStr full else parts₀
      let d := { d with Player := full }
      match parts with
      | [] => d
      | p :: rest => { d with FirstName := p, LastName := List.getLastD rest p }
    | none => d
  doc.dls.foldl applyDl d

/-! ## The scrapers: link discovery -/

/-- The substring selecting profile links in both scrapers. -/
def rosterPat : List Char := "/sports/mens-ice-hockey/roster/".data

/-- The site origin prepended to relative links. -/
def SITE_ORIGIN : String := "https://hurstathletics.com"

/-- The roster URL (`ROSTER_URL` in both scrapers). -/
def ROSTER_URL : String := "https://hurstathletics.com/sports/mens-ice-hockey/roster"

/-- The roster URL in site-relative form. -/
def ROSTER_REL : String := "/sports/mens-ice-hockey/roster"

/-- Whether `pat` occurs as a contiguous substring (Python `pat in s`,
CSS `[href*=pat]`). -/
def hasInfix (pat : List Char) : List Char → Bool
  | [] => pat.isPrefixOf []
  | c :: rest => pat.isPrefixOf (c :: rest) || hasInfix pat rest

/-- Making a href absolute: both scrapers prefix the origin exactly when
the href starts with `"/"`. -/
def absolutize (h : String) : String :=
  if startsWithStr h "/" then SITE_ORIGIN ++ h else h

/-- `gather_profile_links` from `scrape_bios_playwright.py`: anchors are the
page's `a` elements given by their optional `href` attribute; the CSS
selector `a[href*="/sports/mens-ice-hockey/roster/"]` keeps those whose
href contains the roster-path substring. -/
def gather_profile_links_pw (anchors : List (Option String)) : List String :=
  let selected := anchors.filterMap fun h? =>
    match h? with
    | some h => if hasInfix rosterPat h.data then some h else none
    | none => none
  selected.foldl
    (fun hrefs href =>
      if href = "" then hrefs
      else
        let href := absolutize href
        if href ∈ hrefs then hrefs else hrefs ++ [href])
    []

/-- `gather_profile_links` from `scrape_bios_requests.py`:
`soup.find_all("a", href=True)` keeps anchors carrying a href, then the
substring test and the explicit bare-roster exclusions apply. -/
def gather_profile_links_rq (anchors : List (Option String)) : List String :=
  let withHref := anchors.filterMap id
  withHref.foldl
    (fun hrefs href =>
      if hasInfix rosterPat href.data = true ∧ href ≠ ROSTER_REL ∧ href ≠ ROSTER_URL then
        let href := absolutize href
        if href ∈ hrefs then hrefs else hrefs ++ [href]
      else hrefs)
    []

/-! ## The scrapers: driver loop and persistence -/

/-- The per-profile loop of both `main` functions: processing one link
either yields a data row (`ok`) or raises (`error`, carrying the logged
failure message); on success the row is appended, on failure the message
is logged and the loop continues with the next link. -/
def scrape_loop (outcomes : List (Except String (List String))) :
    List (List String) × List String :=
  outcomes.foldl
    (fun p o =>
      match o with
      | .ok r => (p.1 ++ [r], p.2)
      | .error e => (p.1, p.2 ++ [e]))
    ([], [])

/-- The row set written by `scrape_bios_requests.py`: the roster-page
fallback replaces the rows only when none were scraped. -/
def requests_final_rows (rows fallback : List (List String)) : List (List String) :=
  if rows = [] then fallback else rows

/-- The CSV written by both `main` functions: header line then data rows. -/
def write_csv (headers : List String) (rows : List (List String)) : List (List String) :=
  headers :: rows

/-- The relational store visible to the loaders: the committed composite
primary keys `(FirstName, LastName)` of the two tables. -/
structure DBState where
  bioKeys : List (String × String)
  statsKeys : List (String × String)
deriving Repr, DecidableEq

/-- Modelled from the spec: one `session.add_all(...)` + `session.commit()`
call — the persistence contract of §4.6 — inserting a batch into one table
in a single all-or-nothing transaction; the transactional engine itself is
outside `src/`. It fails (returning `none`, leaving the table unchanged)
exactly when the batch collides internally or with an existing key. -/
def insertTxn (existing batch : List (String × String)) :
    Option (List (String × String)) :=
  if batch.Nodup ∧ ∀ k ∈ batch, k ∉ existing then some (existing ++ batch) else none

/-- The module body of `init.py`: commit the bio batch, then — only if that
commit succeeded — commit the stats batch. The returned flag is `true` when
the whole script ran without an exception. -/
def run_init (bios stats : List (String × String)) (db : DBState) : DBState × Bool :=
  match insertTxn db.bioKeys bios with
  | none => (db, false)
  | some b =>
    match insertTxn db.statsKeys stats with
    | none => ({ bioKeys := b, statsKeys := db.statsKeys }, false)
    | some s => ({ bioKeys := b, statsKeys := s }, true)

/-- The ten output column names (`HEADERS` in both scrapers). -/
def HEADERS : List String :=
  ["Number", "Player", "FirstName", "LastName", "Position", "Height",
   "Weight", "Class", "Hometown", "HighSchool"]

/-- The row written for one profile: `[data[h] for h in HEADERS]`. -/
def profile_row (d : ProfileData) : List String :=
  [d.Number, d.Player, d.FirstName, d.LastName, d.Position, d.Height,
   d.Weight, d.Class, d.Hometown, d.HighSchool]

/-- The rows of the successfully processed links, in order. -/
def okRows (outcomes : List (Except String (List String))) : List (List String) :=
  outcomes.filterMap fun o =>
    match o with
    | .ok r => some r
    | .error _ => none

/-- The logged failure messages of the failing links, in order. -/
def errLogs (outcomes : List (Except String (List String))) : List String :=
  outcomes.filterMap fun o =>
    match o with
    | .ok _ => none
    | .error e => some e

lemma scrape_loop_go (outcomes : List (Except String (List String)))
    (a : List (List String)) (b : List String) :
    outcomes.foldl
      (fun p o =>
        match o with
        | .ok r => (p.1 ++ [r], p.2)
        | .error e => (p.1, p.2 ++ [e]))
      (a, b) = (a ++ okRows outcomes, b ++ errLogs outcomes) := by
  induction outcomes generalizing a b with
  | nil => simp [okRows, errLogs]
  | cons o rest ih =>
    cases o with
    | ok r =>
      exact (ih (a ++ [r]) b).trans
        (by simp [okRows, errLogs, List.filterMap_cons, List.append_assoc])
    | error e =>
      exact (ih a (b ++ [e])).trans
        (by simp [okRows, errLogs, List.filterMap_cons, List.append_assoc])

lemma scrape_loop_eq (outcomes : List (Except String (List String))) :
    scrape_loop outcomes = (okRows outcomes, errLogs outcomes) := by
  simpa using scrape_loop_go outcomes [] []

lemma okRows_errLogs_length (outcomes : List (Except String (List String))) :
    (okRows outcomes).length + (errLogs outcomes).length = outcomes.length := by
  induction outcomes with
  | nil => simp [okRows, errLogs]
  | cons o rest ih =>
    cases o <;> simp [okRows, errLogs, List.filterMap_cons] at ih ⊢ <;> omega

/-- C6: processing the discovered links appends one row per succeeding link
and one logged failure line per failing link, in order, and never stops at
a failure; in particular ten links with exactly one failure yield exactly
nine rows (which the requests fallback leaves untouched) and one log line. -/
theorem claim_C6 (outcomes : List (Except String (List String))) :
    (scrape_loop outcomes).1 = okRows outcomes ∧
    (scrape_loop outcomes).2 = errLogs outcomes ∧
    (outcomes.length = 10 → (scrape_loop outcomes).2.length = 1 →
      (scrape_loop outcomes).1.length = 9 ∧
      (∀ fb, requests_final_rows (scrape_loop outcomes).1 fb =
        (scrape_loop outcomes).1) ∧
      (write_csv HEADERS (scrape_loop outcomes).1).length = 10) := by
  have h := scrape_loop_eq outcomes
  refine ⟨by rw [h], by rw [h], ?_⟩
  intro hlen herr
  have hsum := okRows_errLogs_length outcomes
  rw [h] at herr ⊢
  simp only at herr ⊢
  have h9 : (okRows outcomes).length = 9 := by omega
  refine ⟨h9, ?_, by simp [write_csv, h9]⟩
  intro fb
  have hne : okRows outcomes ≠ [] := by
    intro hc
    rw [hc] at h9
    simp at h9
  simp [requests_final_rows, hne]

/-- Witness for C6 at a concrete run of ten links with one failure. -/
theorem claim_C6_witness :
    (scrape_loop [.ok ["1"], .ok ["2"], .ok ["3"], .ok ["4"], .error "boom",
        .ok ["5"], .ok ["6"], .ok ["7"], .ok ["8"], .ok ["9"]]).1.length = 9 :=
  ((claim_C6 [.ok ["1"], .ok ["2"], .ok ["3"], .ok ["4"], .error "boom",
        .ok ["5"], .ok ["6"], .ok ["7"], .ok ["8"], .ok ["9"]]).2.2
    (by decide) (by decide)).1

/-- C5 counterexample: in `init.py` the bio batch and the stats batch are
committed by two separate transactions, so with a clean store, one bio row
and an internally colliding stats batch, the run fails and yet the bio
batch stays committed — refuting "no record of the batch is committed". -/
theorem claim_C5_cex :
    (run_init [("Jane", "Doe")] [("A", "B"), ("A", "B")] ⟨[], []⟩).2 = false ∧
    (run_init [("Jane", "Doe")] [("A", "B"), ("A", "B")] ⟨[], []⟩).1.bioKeys =
      [("Jane", "Doe")] := by
  decide

/-- C5 (amended): each of the two batches is inserted in its own
all-or-nothing transaction. A failing transaction leaves its table exactly
as it was (no partial insert of a batch), but the two batches are not one
transaction: when the stats batch fails after the bio batch succeeded, the
bio batch remains committed. -/
theorem claim_C5 :
    (∀ existing batch : List (String × String),
      insertTxn existing batch = some (existing ++ batch) ∨
      insertTxn existing batch = none) ∧
    (∀ bios stats : List (String × String), ∀ db : DBState,
      ((run_init bios stats db).2 = true →
        (run_init bios stats db).1 = ⟨db.bioKeys ++ bios, db.statsKeys ++ stats⟩) ∧
      ((run_init bios stats db).2 = false →
        (run_init bios stats db).1 = db ∨
        (run_init bios stats db).1 = ⟨db.bioKeys ++ bios, db.statsKeys⟩)) := by
  have hins : ∀ existing batch : List (String × String),
      insertTxn existing batch = some (existing ++ batch) ∨
      insertTxn existing batch = none := by
    intro existing batch
    unfold insertTxn
    split
    · exact Or.inl rfl
    · exact Or.inr rfl
  refine ⟨hins, ?_⟩
  intro bios stats db
  unfold run_init
  cases h₁ : insertTxn db.bioKeys bios with
  | none => simp
  | some b =>
    have hb : b = db.bioKeys ++ bios := by
      rcases hins db.bioKeys bios with h | h <;> rw [h₁] at h
      · exact Option.some.inj h
      · cases h
    subst hb
    cases h₂ : insertTxn db.statsKeys stats with
    | none => simp
    | some s =>
      have hs : s = db.statsKeys ++ stats := by
        rcases hins db.statsKeys stats with h | h <;> rw [h₂] at h
        · exact Option.some.inj h
        · cases h
      subst hs
      simp

/-- Witness for C5 (amended) at a concrete successful load. -/
theorem claim_C5_witness :
    (run_init [("Jane", "Doe")] [("Jane", "Doe")] ⟨[], []⟩).1 =
      ⟨[("Jane", "Doe")], [("Jane", "Doe")]⟩ :=
  (claim_C5.2 [("Jane", "Doe")] [("Jane", "Doe")] ⟨[], []⟩).1 (by decide)

/-! ## C2: bio string fields -/

/-- The bio headers coerced by the plain string policy into optional
string fields of the model. -/
def bioStrHeaders : List String :=
  ["Player", "Position", "Height", "Weight", "Class", "Hometown", "HighSchool"]

/-- Read a `Bio` optional string field by its header name. -/
def bioOptField (b : Bio) (h : String) : Option String :=
  match h with
  | "Player" => b.Player
  | "Position" => b.Position
  | "Height" => b.Height
  | "Weight" => b.Weight
  | "Class" => b.Class
  | "Hometown" => b.Hometown
  | "HighSchool" => b.HighSchool
  | _ => none

lemma pyStrip_pyOrEmpty_some (s : String) :
    pyStrip (pyOrEmpty (some s)) = pyStrip s := by
  by_cases h : s = "" <;> simp [pyOrEmpty, h]

/-- The string coercion `(row.get(k) or "").strip()`, described through the
row's cell for `k`. -/
lemma strip_cell_cases (row : Row) (k : String) :
    (∀ s, List.lookup k row = some (some s) →
      pyStrip (pyOrEmpty (rowGet row k none)) = pyStrip s) ∧
    ((List.lookup k row = none ∨ List.lookup k row = some none) →
      pyStrip (pyOrEmpty (rowGet row k none)) = "") := by
  constructor
  · intro s hs
    rw [rowGet, hs]
    exact pyStrip_pyOrEmpty_some s
  · rintro (h | h) <;> rw [rowGet, h] <;> rfl

/-- C2: in the bio pass every string field is the cell stripped of
surrounding whitespace, and a missing or null cell yields the empty string
— never the missing-value marker — for every string field, the two key
fields included. -/
theorem claim_C2 (row : Row) :
    (∀ h ∈ bioStrHeaders,
      (∀ s, List.lookup h row = some (some s) →
        bioOptField (make_bio_instance row) h = some (pyStrip s)) ∧
      ((List.lookup h row = none ∨ List.lookup h row = some none) →
        bioOptField (make_bio_instance row) h = some "") ∧
      bioOptField (make_bio_instance row) h ≠ none) ∧
    ((∀ s, List.lookup "FirstName" row = some (some s) →
        (make_bio_instance row).FirstName = pyStrip s) ∧
      ((List.lookup "FirstName" row = none ∨ List.lookup "FirstName" row = some none) →
        (make_bio_instance row).FirstName = "")) ∧
    ((∀ s, List.lookup "LastName" row = some (some s) →
        (make_bio_instance row).LastName = pyStrip s) ∧
      ((List.lookup "LastName" row = none ∨ List.lookup "LastName" row = some none) →
        (make_bio_instance row).LastName = "")) := by
  refine ⟨?_, ⟨(strip_cell_cases row "FirstName").1, (strip_cell_cases row "FirstName").2⟩,
    ⟨(strip_cell_cases row "LastName").1, (strip_cell_cases row "LastName").2⟩⟩
  intro h hmem
  fin_cases hmem <;>
    exact ⟨fun s hs => by
        simp only [bioOptField, make_bio_instance, Option.some.injEq]
        exact (strip_cell_cases row _).1 s hs,
      fun hs => by
        simp only [bioOptField, make_bio_instance, Option.some.injEq]
        exact (strip_cell_cases row _).2 hs,
      by simp [bioOptField, make_bio_instance]⟩

/-- Witness for C2 at a concrete row with one padded cell and the other
columns missing. -/
theorem claim_C2_witness :
    bioOptField (make_bio_instance [("Player", some " Jane Doe ")]) "Player" =
      some (pyStrip " Jane Doe ") ∧
    bioOptField (make_bio_instance [("Player", some " Jane Doe ")]) "Hometown" =
      some "" :=
  ⟨((claim_C2 [("Player", some " Jane Doe ")]).1 "Player" (by decide)).1
      " Jane Doe " (by decide),
    ((claim_C2 [("Player", some " Jane Doe ")]).1 "Hometown" (by decide)).2.1
      (Or.inl (by decide))⟩

/-! ## C7 and C10: name extraction and scraper equivalence -/

lemma applyDl_keeps_name (d : ProfileData) (p : DlPair) :
    (applyDl d p).Number = d.Number ∧ (applyDl d p).Player = d.Player ∧
    (applyDl d p).FirstName = d.FirstName ∧ (applyDl d p).LastName = d.LastName := by
  rcases p with ⟨dt, dd⟩
  cases dt <;> cases dd <;> simp only [applyDl] <;> (repeat' split) <;> simp

lemma foldDl_keeps_name (dls : List DlPair) (d : ProfileData) :
    ((dls.foldl applyDl d).Number = d.Number ∧
      (dls.foldl applyDl d).Player = d.Player) ∧
    (dls.foldl applyDl d).FirstName = d.FirstName ∧
    (dls.foldl applyDl d).LastName = d.LastName := by
  induction dls generalizing d with
  | nil => exact ⟨⟨rfl, rfl⟩, rfl, rfl⟩
  | cons p rest ih =>
    have h := applyDl_keeps_name d p
    have h' := ih (applyDl d p)
    simp only [List.foldl_cons]
    exact ⟨⟨h'.1.1.trans h.1, h'.1.2.trans h.2.1⟩,
      h'.2.1.trans h.2.2.1, h'.2.2.trans h.2.2.2⟩

lemma pyStrip_empty : pyStrip "" = "" := rfl

lemma pySplitStr_empty : pySplitStr "" = [] := rfl

lemma foldDl_Number (dls : List DlPair) (d : ProfileData) :
    (dls.foldl applyDl d).Number = d.Number := (foldDl_keeps_name dls d).1.1

lemma foldDl_Player (dls : List DlPair) (d : ProfileData) :
    (dls.foldl applyDl d).Player = d.Player := (foldDl_keeps_name dls d).1.2

lemma foldDl_FirstName (dls : List DlPair) (d : ProfileData) :
    (dls.foldl applyDl d).FirstName = d.FirstName := (foldDl_keeps_name dls d).2.1

lemma foldDl_LastName (dls : List DlPair) (d : ProfileData) :
    (dls.foldl applyDl d).LastName = d.LastName := (foldDl_keeps_name dls d).2.2

/-- C7 counterexample: with a name element whose sub-parts normalize to
`""` and `"Doe"`, the join of the normalized parts with single spaces is
`" Doe"`, but the code strips the join, so `Player` is `"Doe"` — the claim
that the plain join forms `Player` fails at this input. -/
theorem claim_C7_cex :
    (extract_from_profile_pw
        ⟨none, some ⟨["", "Doe"], ""⟩, []⟩).Player ≠
      joinWithSpace ((["", "Doe"] : List String).map normalize) := by
  decide

/-- C7 (amended): `Player` is the normalized sub-element texts joined with
single spaces and then stripped of surrounding whitespace; `FirstName` is
the first part and `LastName` the last part whenever at least one part
exists (so a single part makes them equal), in both scrapers (the requests
scraper takes this path exactly when sub-elements exist). -/
theorem claim_C7 (doc : ProfileDoc) (ne : NameEl) (hne : doc.nameEl = some ne) :
    ((extract_from_profile_pw doc).Player =
      pyStrip (joinWithSpace (ne.spanTexts.map normalize))) ∧
    (∀ p rest, ne.spanTexts.map normalize = p :: rest →
      (extract_from_profile_pw doc).FirstName = p ∧
      (extract_from_profile_pw doc).LastName = List.getLastD rest p) ∧
    (∀ p rest, ne.spanTexts.map normalize = p :: rest →
      (extract_from_profile_rq doc).Player =
        pyStrip (joinWithSpace (ne.spanTexts.map normalize)) ∧
      (extract_from_profile_rq doc).FirstName = p ∧
      (extract_from_profile_rq doc).LastName = List.getLastD rest p) := by
  rcases ne with ⟨spans, own⟩
  refine ⟨?_, ?_, ?_⟩
  · cases spans with
    | nil =>
      cases hj : doc.jerseyText <;>
        simp [extract_from_profile_pw, hne, hj, foldDl_Player]
    | cons a as =>
      cases hj : doc.jerseyText <;>
        simp [extract_from_profile_pw, hne, hj, foldDl_Player]
  · intro p rest hpr
    cases spans with
    | nil => simp at hpr
    | cons a as =>
      simp only [List.map_cons] at hpr
      obtain ⟨h₁, h₂⟩ := List.cons.inj hpr
      subst h₁ h₂
      cases hj : doc.jerseyText <;>
        exact ⟨by simp [extract_from_profile_pw, hne, hj, foldDl_FirstName],
          by simp [extract_from_profile_pw, hne, hj, foldDl_LastName]⟩
  · intro p rest hpr
    cases spans with
    | nil => simp at hpr
    | cons a as =>
      simp only [List.map_cons] at hpr
      obtain ⟨h₁, h₂⟩ := List.cons.inj hpr
      subst h₁ h₂
      cases hj : doc.jerseyText <;>
        exact ⟨by simp [extract_from_profile_rq, hne, hj, foldDl_Player],
          by simp [extract_from_profile_rq, hne, hj, foldDl_FirstName],
          by simp [extract_from_profile_rq, hne, hj, foldDl_LastName]⟩

/-- Witness for C7 (amended) at the three-part name element. -/
theorem claim_C7_witness :
    (extract_from_profile_pw
        ⟨none, some ⟨["Jane", "Q", "Doe"], ""⟩, []⟩).FirstName = normalize "Jane" ∧
    (extract_from_profile_pw
        ⟨none, some ⟨["Jane", "Q", "Doe"], ""⟩, []⟩).LastName =
      List.getLastD [normalize "Q", normalize "Doe"] (normalize "Jane") :=
  (claim_C7 ⟨none, some ⟨["Jane", "Q", "Doe"], ""⟩, []⟩
      ⟨["Jane", "Q", "Doe"], ""⟩ rfl).2.1 (normalize "Jane")
    [normalize "Q", normalize "Doe"] rfl

/-- C10 counterexample: on a profile whose name element has no `span`
children but carries the text `"Jane Doe"`, the requests extractor falls
back to splitting the element's own text while the Playwright extractor
leaves the name fields empty, so the two ten-field mappings differ. -/
theorem claim_C10_cex :
    extract_from_profile_pw ⟨none, some ⟨[], "Jane Doe"⟩, []⟩ ≠
      extract_from_profile_rq ⟨none, some ⟨[], "Jane Doe"⟩, []⟩ := by
  decide

/-- C10 (amended): the two extractors agree on every profile document whose
name element, when present, either has at least one `span` sub-element or
has an own text that normalizes to the empty string; they diverge exactly
on the fallback the requests version applies otherwise. -/
theorem claim_C10 (doc : ProfileDoc)
    (h : ∀ ne, doc.nameEl = some ne → ne.spanTexts ≠ [] ∨ normalize ne.ownText = "") :
    extract_from_profile_pw doc = extract_from_profile_rq doc := by
  cases hne : doc.nameEl with
  | none => simp [extract_from_profile_pw, extract_from_profile_rq, hne]
  | some ne =>
    cases hsp : ne.spanTexts with
    | cons a as =>
      simp [extract_from_profile_pw, extract_from_profile_rq, hne, hsp]
    | nil =>
      rcases h ne hne with hni | hemp
      · exact absurd hsp hni
      · simp [extract_from_profile_pw, extract_from_profile_rq, hne, hsp, hemp,
          pySplitStr_empty, pyStrip_empty, joinWithSpace]

/-- Witness for C10 (amended) at a two-span name element. -/
theorem claim_C10_witness :
    extract_from_profile_pw ⟨some "12", some ⟨["Jane", "Doe"], "Jane Doe"⟩, []⟩ =
      extract_from_profile_rq ⟨some "12", some ⟨["Jane", "Doe"], "Jane Doe"⟩, []⟩ :=
  claim_C10 ⟨some "12", some ⟨["Jane", "Doe"], "Jane Doe"⟩, []⟩
    (fun ne hne => Or.inl (by
      have h := Option.some.inj hne
      rw [← h]
      decide))

/-! ## C1, C3, C4: the stats keyword dict

The item loop writes at most one `kw` key per row item: `writeKey` names
it (`none` for the three skipped headers) and `writeVal` the stored value. -/

/-- The `kw` key written by one loop iteration, if any. -/
def writeKey (item : String × Option String) : Option String :=
  if item.1 = "Number" ∨ item.1 = "FirstName" ∨ item.1 = "LastName" then none
  else if item.1 = "PN-PIM" then some "PN_PIM"
  else some item.1

/-- The value written by one loop iteration (meaningful when `writeKey`
is `some`). -/
def writeVal (item : String × Option String) : FieldVal :=
  if item.1 = "PN-PIM" then .strF (pyStrip (pyOrEmpty item.2))
  else if item.1 ∈ int_fields then .intF (coerce_int item.2)
  else if item.1 = "SH_PCT" then .floatF (coerce_float item.2)
  else .strF (pyStrip (pyOrEmpty item.2))

/-- The effect of the item loop on one looked-up key. -/
def pickWrite (t : String) (acc : Option FieldVal) (item : String × Option String) :
    Option FieldVal :=
  if writeKey item = some t then some (writeVal item) else acc

lemma dictGet_dictSet_self (m : List (String × FieldVal)) (k : String) (v : FieldVal) :
    dictGet (dictSet m k v) k = some v := by
  induction m with
  | nil => simp [dictSet, dictGet, List.lookup]
  | cons a rest ih =>
    rcases a with ⟨k₀, v₀⟩
    by_cases h : k₀ = k
    · subst h
      simp [dictSet, dictGet, List.lookup]
    · have hb : (k == k₀) = false := beq_eq_false_iff_ne.2 (Ne.symm h)
      simp only [dictSet, if_neg h, dictGet, List.lookup, hb]
      exact ih

lemma dictGet_dictSet_ne (m : List (String × FieldVal)) (k k' : String) (v : FieldVal)
    (h : k' ≠ k) : dictGet (dictSet m k v) k' = dictGet m k' := by
  induction m with
  | nil => simp [dictSet, dictGet, List.lookup, beq_eq_false_iff_ne.2 h]
  | cons a rest ih =>
    rcases a with ⟨k₀, v₀⟩
    by_cases h₀ : k₀ = k
    · subst h₀
      simp [dictSet, dictGet, List.lookup, beq_eq_false_iff_ne.2 h]
    · simp only [dictSet, if_neg h₀]
      by_cases h₁ : k' = k₀
      · subst h₁
        simp [dictGet, List.lookup]
      · have hb : (k' == k₀) = false := beq_eq_false_iff_ne.2 h₁
        simp only [dictGet, List.lookup, hb]
        exact ih

lemma statsStep_get (kw : List (String × FieldVal)) (item : String × Option String)
    (t : String) : dictGet (statsStep kw item) t = pickWrite t (dictGet kw t) item := by
  rcases item with ⟨key, val⟩
  by_cases h₁ : key = "Number" ∨ key = "FirstName" ∨ key = "LastName"
  · simp [statsStep, pickWrite, writeKey, h₁]
  · by_cases h₂ : key = "PN-PIM"
    · subst h₂
      simp only [statsStep, pickWrite, writeKey, writeVal, if_neg h₁, if_pos rfl]
      by_cases h₃ : "PN_PIM" = t
      · subst h₃
        simp [dictGet_dictSet_self]
      · simp [dictGet_dictSet_ne _ _ _ _ (Ne.symm h₃), h₃]
    · by_cases h₄ : key = t
      · subst h₄
        simp only [statsStep, pickWrite, writeKey, writeVal, if_neg h₁, if_neg h₂,
          Option.some.injEq, if_pos rfl]
        by_cases h₅ : key ∈ int_fields
        · simp [h₅, dictGet_dictSet_self]
        · by_cases h₆ : key = "SH_PCT"
          · subst h₆
            simp [h₅, dictGet_dictSet_self]
          · simp [h₅, h₆, dictGet_dictSet_self]
      · simp only [statsStep, pickWrite, writeKey, writeVal, if_neg h₁, if_neg h₂,
          Option.some.injEq, if_neg h₄]
        by_cases h₅ : key ∈ int_fields
        · simp [h₅, dictGet_dictSet_ne _ _ _ _ (Ne.symm h₄)]
        · by_cases h₆ : key = "SH_PCT"
          · subst h₆
            simp [h₅, dictGet_dictSet_ne _ _ _ _ (Ne.symm h₄)]
          · simp [h₅, h₆, dictGet_dictSet_ne _ _ _ _ (Ne.symm h₄)]

lemma foldl_statsStep_get (row : List (String × Option String))
    (kw : List (String × FieldVal)) (t : String) :
    dictGet (row.foldl statsStep kw) t = row.foldl (pickWrite t) (dictGet kw t) := by
  induction row generalizing kw with
  | nil => rfl
  | cons item rest ih =>
    simp only [List.foldl_cons]
    rw [ih, statsStep_get]

lemma foldl_pickWrite_none (row : List (String × Option String)) (t : String)
    (acc : Option FieldVal) (h : ∀ item ∈ row, writeKey item ≠ some t) :
    row.foldl (pickWrite t) acc = acc := by
  induction row generalizing acc with
  | nil => rfl
  | cons item rest ih =>
    simp only [List.foldl_cons, pickWrite, if_neg (h item (by simp))]
    exact ih acc fun it hit => h it (by simp [hit])

lemma eq_of_mem_keys_nodup {row : List (String × Option String)}
    (hnd : (row.map Prod.fst).Nodup) {a b : String × Option String}
    (ha : a ∈ row) (hb : b ∈ row) (hk : a.1 = b.1) : a = b := by
  induction row with
  | nil => cases ha
  | cons c rest ih =>
    simp only [List.map_cons, List.nodup_cons] at hnd
    rcases List.mem_cons.1 ha with rfl | ha' <;>
      rcases List.mem_cons.1 hb with rfl | hb'
    · rfl
    · exact absurd (hk ▸ List.mem_map_of_mem Prod.fst hb') hnd.1
    · exact absurd (hk ▸ List.mem_map_of_mem Prod.fst ha') hnd.1
    · exact ih hnd.2 ha' hb'

lemma foldl_pickWrite_unique (row : List (String × Option String)) (t : String)
    (item₀ : String × Option String) (acc : Option FieldVal)
    (hnd : (row.map Prod.fst).Nodup) (hmem : item₀ ∈ row)
    (hw : writeKey item₀ = some t)
    (hkey : ∀ item ∈ row, writeKey item = some t → item.1 = item₀.1) :
    row.foldl (pickWrite t) acc = some (writeVal item₀) := by
  induction row generalizing acc with
  | nil => cases hmem
  | cons item rest ih =>
    simp only [List.map_cons, List.nodup_cons] at hnd
    by_cases hcur : writeKey item = some t
    · have hitem : item = item₀ := by
        rcases List.mem_cons.1 hmem with rfl | hmem'
        · rfl
        · exact absurd ((hkey item (by simp) hcur) ▸ List.mem_map_of_mem Prod.fst hmem')
            hnd.1
      subst hitem
      simp only [List.foldl_cons, pickWrite, if_pos hcur]
      refine foldl_pickWrite_none rest t _ fun it hit hwit => ?_
      exact hnd.1 ((hkey it (by simp [hit]) hwit) ▸ List.mem_map_of_mem Prod.fst hit)
    · have hmem' : item₀ ∈ rest := by
        rcases List.mem_cons.1 hmem with rfl | hmem'
        · exact absurd hw hcur
        · exact hmem'
      simp only [List.foldl_cons, pickWrite, if_neg hcur]
      exact ih acc hnd.2 hmem' fun it hit hwit =>
        hkey it (List.mem_cons_of_mem _ hit) hwit

lemma lookup_some_mem {row : List (String × Option String)} {k : String}
    {v : Option String} (h : List.lookup k row = some v) : (k, v) ∈ row := by
  induction row with
  | nil => cases h
  | cons a rest ih =>
    rcases a with ⟨k₀, v₀⟩
    by_cases hk : k = k₀
    · subst hk
      simp only [List.lookup, beq_self_eq_true, if_pos] at h
      simp [← Option.some.inj h]
    · simp only [List.lookup, beq_eq_false_iff_ne.2 hk] at h
      exact List.mem_cons_of_mem _ (ih h)

lemma lookup_mem_nodup {row : List (String × Option String)} {k : String}
    {v : Option String} (hnd : (row.map Prod.fst).Nodup) (h : (k, v) ∈ row) :
    List.lookup k row = some v := by
  induction row with
  | nil => cases h
  | cons a rest ih =>
    rcases a with ⟨k₀, v₀⟩
    simp only [List.map_cons, List.nodup_cons] at hnd
    rcases List.mem_cons.1 h with heq | hmem
    · rw [show k = k₀ from congrArg Prod.fst heq, show v = v₀ from congrArg Prod.snd heq]
      simp [List.lookup]
    · have hk : k ≠ k₀ := by
        intro hc
        subst hc
        exact hnd.1 (List.mem_map_of_mem Prod.fst hmem)

      simp only [List.lookup, beq_eq_false_iff_ne.2 hk]
      exact ih hnd.2 hmem

/-- The base dict built by the three direct mappings. -/
def statsBase (row : Row) : List (String × FieldVal) :=
  [("Number", .intF (coerce_int (rowGet row "Number" (some "")))),
   ("FirstName", .strF (pyStrip (pyOrEmpty (rowGet row "FirstName" none)))),
   ("LastName", .strF (pyStrip (pyOrEmpty (rowGet row "LastName" none))))]

lemma make_stats_kw_eq (row : Row) :
    make_stats_kw row = row.foldl statsStep (statsBase row) := rfl

lemma stats_kw_get (row : Row) (t : String) :
    dictGet (make_stats_kw row) t =
      row.foldl (pickWrite t) (dictGet (statsBase row) t) := by
  rw [make_stats_kw_eq, foldl_statsStep_get]

lemma of_writeKey_eq_some {it : String × Option String} {t : String}
    (h : writeKey it = some t) :
    it.1 = t ∨ (it.1 = "PN-PIM" ∧ t = "PN_PIM") := by
  by_cases h₁ : it.1 = "Number" ∨ it.1 = "FirstName" ∨ it.1 = "LastName"
  · rw [writeKey, if_pos h₁] at h
    cases h
  · by_cases h₂ : it.1 = "PN-PIM"
    · rw [writeKey, if_neg h₁, if_pos h₂] at h
      exact Or.inr ⟨h₂, (Option.some.inj h).symm⟩
    · rw [writeKey, if_neg h₁, if_neg h₂] at h
      exact Or.inl (Option.some.inj h)

lemma writeKey_self {k : String} {v : Option String}
    (h₁ : ¬(k = "Number" ∨ k = "FirstName" ∨ k = "LastName")) (h₂ : k ≠ "PN-PIM") :
    writeKey (k, v) = some k := by
  unfold writeKey
  simp [h₁, h₂]

lemma writeKey_skip {it : String × Option String}
    (h : it.1 = "Number" ∨ it.1 = "FirstName" ∨ it.1 = "LastName") :
    writeKey it = none := by
  unfold writeKey
  simp [h]

lemma stats_kw_get_nowriter (row : Row) (t : String)
    (h : ∀ item ∈ row, writeKey item ≠ some t) :
    dictGet (make_stats_kw row) t = dictGet (statsBase row) t := by
  rw [stats_kw_get]
  exact foldl_pickWrite_none row t _ h

lemma no_writer_of_base (row : Row) (t : String)
    (ht : t = "Number" ∨ t = "FirstName" ∨ t = "LastName") :
    ∀ item ∈ row, writeKey item ≠ some t := by
  intro it _ hwit
  rcases of_writeKey_eq_some hwit with h | ⟨_, hk⟩
  · have hz : writeKey it = none := writeKey_skip (by rw [h]; exact ht)
    rw [hz] at hwit
    cases hwit
  · rw [hk] at ht
    rcases ht with h | h | h <;> exact absurd h (by decide)

lemma no_writer_of_absent (row : Row) (t : String)
    (hmem : t ∉ row.map Prod.fst)
    (hpn : t = "PN_PIM" → "PN-PIM" ∉ row.map Prod.fst) :
    ∀ item ∈ row, writeKey item ≠ some t := by
  intro it hit hwit
  rcases of_writeKey_eq_some hwit with h | ⟨hp, hk⟩
  · exact hmem (h ▸ List.mem_map_of_mem Prod.fst hit)
  · exact hpn hk (hp ▸ List.mem_map_of_mem Prod.fst hit)

lemma stats_kw_get_present (row : Row) (hnd : (row.map Prod.fst).Nodup)
    (k : String) (v : Option String) (hmem : (k, v) ∈ row)
    (h₁ : ¬(k = "Number" ∨ k = "FirstName" ∨ k = "LastName")) (h₂ : k ≠ "PN-PIM")
    (hpn : k = "PN_PIM" → "PN-PIM" ∉ row.map Prod.fst) :
    dictGet (make_stats_kw row) k = some (writeVal (k, v)) := by
  rw [stats_kw_get]
  refine foldl_pickWrite_unique row k (k, v) _ hnd hmem (writeKey_self h₁ h₂) ?_
  intro it hit hwit
  rcases of_writeKey_eq_some hwit with h | ⟨hp, hk⟩
  · exact h
  · exact absurd (hp ▸ List.mem_map_of_mem Prod.fst hit) (hpn hk)

lemma statsBase_get_number (row : Row) :
    dictGet (statsBase row) "Number" =
      some (.intF (coerce_int (rowGet row "Number" (some "")))) := rfl

lemma statsBase_get_firstname (row : Row) :
    dictGet (statsBase row) "FirstName" =
      some (.strF (pyStrip (pyOrEmpty (rowGet row "FirstName" none)))) := rfl

lemma statsBase_get_lastname (row : Row) :
    dictGet (statsBase row) "LastName" =
      some (.strF (pyStrip (pyOrEmpty (rowGet row "LastName" none)))) := rfl

lemma statsBase_get_other (row : Row) (t : String) (h₁ : t ≠ "Number")
    (h₂ : t ≠ "FirstName") (h₃ : t ≠ "LastName") :
    dictGet (statsBase row) t = none := by
  simp only [statsBase, dictGet, List.lookup, beq_eq_false_iff_ne.2 h₁,
    beq_eq_false_iff_ne.2 h₂, beq_eq_false_iff_ne.2 h₃]

lemma pyInt_empty : pyInt "" = none := rfl

/-- The int coercion of a cell that is absent, null, or unparsable. -/
lemma coerce_get_none (row : Row) (k : String)
    (h : ∀ s, List.lookup k row = some (some s) → pyInt s = none) :
    coerce_int (rowGet row k (some "")) = none := by
  cases hl : List.lookup k row with
  | none => simp [rowGet, hl, coerce_int, pyInt_empty]
  | some v =>
    cases v with
    | none => simp [rowGet, hl, coerce_int]
    | some s => simp [rowGet, hl, coerce_int, h s hl]

/-- The `Number` field of the stats pass under a bad or missing cell. -/
lemma stats_number_none (row : Row)
    (h : ∀ s, List.lookup "Number" row = some (some s) → pyInt s = none) :
    statsIntValue (make_stats_kw row) "Number" = none := by
  rw [statsIntValue, stats_kw_get_nowriter row "Number"
      (no_writer_of_base row "Number" (Or.inl rfl)),
    statsBase_get_number, coerce_get_none row "Number" h]

/-- An integer stats field other than `Number` under a bad or missing cell. -/
lemma stats_int_field_none (row : Row) (hnd : (row.map Prod.fst).Nodup)
    (k : String) (hk_int : k ∈ int_fields) (hk_num : k ≠ "Number")
    (h : ∀ s, List.lookup k row = some (some s) → pyInt s = none) :
    statsIntValue (make_stats_kw row) k = none := by
  have hside : ∀ x ∈ int_fields, x ≠ "FirstName" ∧ x ≠ "LastName" ∧
      x ≠ "PN-PIM" ∧ x ≠ "PN_PIM" := by decide
  obtain ⟨hk1, hk2, hk3, hk4⟩ := hside k hk_int
  by_cases hkey : k ∈ row.map Prod.fst
  · obtain ⟨it, hit, hfst⟩ := List.mem_map.1 hkey
    obtain ⟨v, rfl⟩ : ∃ v, it = (k, v) := ⟨it.2, by rw [← hfst]⟩
    rw [statsIntValue, stats_kw_get_present row hnd k v hit
        (by simp [hk_num, hk1, hk2]) hk3 (fun hc => absurd hc hk4)]
    have hval : writeVal (k, v) = .intF (coerce_int v) := by
      simp [writeVal, hk3, hk_int]
    rw [hval]
    have hl : List.lookup k row = some v := lookup_mem_nodup hnd hit
    cases v with
    | none => rfl
    | some s => simp [coerce_int, h s hl]
  · rw [statsIntValue, stats_kw_get_nowriter row k
        (no_writer_of_absent row k hkey (fun hc => absurd hc hk4)),
      statsBase_get_other row k hk_num hk1 hk2]

/-- C1: for both passes, an integer-set column whose cell is missing, null,
empty or unparsable coerces to the missing value `none` — never zero, never
a raised error (the coercion functions are total) — and every row still
yields exactly one record. -/
theorem claim_C1 :
    (∀ rows : List Row, (make_stats_instances rows).length = rows.length) ∧
    (∀ rows : List Row, (make_bio_instances rows).length = rows.length) ∧
    (∀ row : Row,
      (∀ s, List.lookup "Number" row = some (some s) → pyInt s = none) →
      (make_bio_instance row).Number = none) ∧
    (∀ row : Row, (row.map Prod.fst).Nodup →
      ∀ k ∈ int_fields,
        (∀ s, List.lookup k row = some (some s) → pyInt s = none) →
        statsIntValue (make_stats_kw row) k = none ∧
        statsIntValue (make_stats_kw row) k ≠ some 0) := by
  refine ⟨fun rows => by simp [make_stats_instances],
    fun rows => by simp [make_bio_instances], ?_, ?_⟩
  · intro row h
    exact coerce_get_none row "Number" h
  · intro row hnd k hk h
    by_cases hkn : k = "Number"
    · subst hkn
      have hz := stats_number_none row h
      exact ⟨hz, by simp [hz]⟩
    · have hz := stats_int_field_none row hnd k hk hkn h
      exact ⟨hz, by simp [hz]⟩

/-- Witness for C1 at a row with an unparsable `Number`, an empty `G` and
a missing `GP`. -/
theorem claim_C1_witness :
    statsIntValue (make_stats_kw
        [("Number", some "abc"), ("G", some ""), ("FirstName", some "J")]) "Number" =
      none ∧
    statsIntValue (make_stats_kw
        [("Number", some "abc"), ("G", some ""), ("FirstName", some "J")]) "G" =
      none ∧
    statsIntValue (make_stats_kw
        [("Number", some "abc"), ("G", some ""), ("FirstName", some "J")]) "GP" =
      none ∧
    (make_bio_instance [("Number", some "7.5")]).Number = none :=
  ⟨(claim_C1.2.2.2 [("Number", some "abc"), ("G", some ""), ("FirstName", some "J")]
      (by decide) "Number" (by decide) (by
        intro s hs
        have : s = "abc" := by
          have := Option.some.inj (Option.some.inj hs)
          exact this.symm
        subst this
        decide)).1,
    (claim_C1.2.2.2 [("Number", some "abc"), ("G", some ""), ("FirstName", some "J")]
      (by decide) "G" (by decide) (by
        intro s hs
        have : s = "" := by
          have := Option.some.inj (Option.some.inj hs)
          exact this.symm
        subst this
        decide)).1,
    (claim_C1.2.2.2 [("Number", some "abc"), ("G", some ""), ("FirstName", some "J")]
      (by decide) "GP" (by decide) (by intro s hs; cases hs)).1,
    claim_C1.2.2.1 [("Number", some "7.5")] (by
      intro s hs
      have : s = "7.5" := by
        have := Option.some.inj (Option.some.inj hs)
        exact this.symm
      subst this
      decide)⟩

lemma writeKey_pn {k : String} {vv : Option String} (h : k = "PN-PIM") :
    writeKey (k, vv) = some "PN_PIM" := by
  subst h
  rfl

/-- C3: the cell under the literal header `PN-PIM` is stored, stripped and
as a plain string, under the renamed field `PN_PIM`; nothing is stored
under the hyphenated name, while every other present column is stored
under its own header name — the rename is unique. -/
theorem claim_C3 (row : Row) (hnd : (row.map Prod.fst).Nodup)
    (hpn : ¬("PN-PIM" ∈ row.map Prod.fst ∧ "PN_PIM" ∈ row.map Prod.fst)) :
    (∀ v, List.lookup "PN-PIM" row = some v →
      dictGet (make_stats_kw row) "PN_PIM" = some (.strF (pyStrip (pyOrEmpty v))) ∧
      dictGet (make_stats_kw row) "PN-PIM" = none) ∧
    (∀ k v, (k, v) ∈ row → k ≠ "PN-PIM" →
      dictGet (make_stats_kw row) k ≠ none) := by
  constructor
  · intro v hv
    have hmemrow : ("PN-PIM", v) ∈ row := lookup_some_mem hv
    have hnp : "PN_PIM" ∉ row.map Prod.fst := fun hc =>
      hpn ⟨List.mem_map_of_mem Prod.fst hmemrow, hc⟩
    constructor
    · rw [stats_kw_get]
      refine foldl_pickWrite_unique row "PN_PIM" ("PN-PIM", v) _ hnd hmemrow rfl ?_
      intro it hit hwit
      rcases of_writeKey_eq_some hwit with h | ⟨hp, _⟩
      · exact absurd (h ▸ List.mem_map_of_mem Prod.fst hit) hnp
      · exact hp
    · rw [stats_kw_get_nowriter row "PN-PIM" ?_,
        statsBase_get_other row "PN-PIM" (by decide) (by decide) (by decide)]
      intro it hit hwit
      rcases of_writeKey_eq_some hwit with h | ⟨_, hk⟩
      · rcases it with ⟨k₀, v₀⟩
        rw [writeKey_pn h] at hwit
        exact absurd (Option.some.inj hwit) (by decide)
      · exact absurd hk (by decide)
  · intro k v hmem hkpn
    by_cases hbase : k = "Number" ∨ k = "FirstName" ∨ k = "LastName"
    · rw [stats_kw_get_nowriter row k (no_writer_of_base row k hbase)]
      rcases hbase with h | h | h <;> subst h
      · rw [statsBase_get_number]
        simp
      · rw [statsBase_get_firstname]
        simp
      · rw [statsBase_get_lastname]
        simp
    · have hpn' : k = "PN_PIM" → "PN-PIM" ∉ row.map Prod.fst := fun hc hmem' =>
        hpn ⟨hmem', hc ▸ List.mem_map_of_mem Prod.fst hmem⟩
      rw [stats_kw_get_present row hnd k v hmem hbase hkpn hpn']
      simp

/-- Witness for C3 at a row carrying a `PN-PIM` column. -/
theorem claim_C3_witness :
    dictGet (make_stats_kw [("PN-PIM", some " 5-10 "), ("Number", some "1")])
        "PN_PIM" = some (.strF (pyStrip (pyOrEmpty (some " 5-10 ")))) ∧
    dictGet (make_stats_kw [("PN-PIM", some " 5-10 "), ("Number", some "1")])
        "PN-PIM" = none :=
  (claim_C3 [("PN-PIM", some " 5-10 "), ("Number", some "1")] (by decide)
      (by decide)).1 (some " 5-10 ") (by decide)

/-- C4: the stats pass produces exactly one record per row, whatever
columns are present, and every present column outside the integer set and
the `SH_PCT` / `PN-PIM` special cases — the two name keys included — is
stored as its plainly stripped string. -/
theorem claim_C4 :
    (∀ rows : List Row, (make_stats_instances rows).length = rows.length) ∧
    (∀ row : Row, (row.map Prod.fst).Nodup →
      ¬("PN-PIM" ∈ row.map Prod.fst ∧ "PN_PIM" ∈ row.map Prod.fst) →
      ∀ k v, (k, v) ∈ row → k ∉ int_fields → k ≠ "SH_PCT" → k ≠ "PN-PIM" →
        dictGet (make_stats_kw row) k =
          some (.strF (pyStrip (pyOrEmpty v)))) := by
  refine ⟨fun rows => by simp [make_stats_instances], ?_⟩
  intro row hnd hpn k v hmem hki hks hkp
  have hknum : k ≠ "Number" := fun hc =>
    hki (hc ▸ (by decide : "Number" ∈ int_fields))
  by_cases h1 : k = "FirstName"
  · subst h1
    rw [stats_kw_get_nowriter row _ (no_writer_of_base row _ (Or.inr (Or.inl rfl))),
      statsBase_get_firstname, rowGet, lookup_mem_nodup hnd hmem]
  · by_cases h2 : k = "LastName"
    · subst h2
      rw [stats_kw_get_nowriter row _ (no_writer_of_base row _ (Or.inr (Or.inr rfl))),
        statsBase_get_lastname, rowGet, lookup_mem_nodup hnd hmem]
    · have hbase : ¬(k = "Number" ∨ k = "FirstName" ∨ k = "LastName") := by
        simp [hknum, h1, h2]
      have hpn' : k = "PN_PIM" → "PN-PIM" ∉ row.map Prod.fst := fun hc hmem' =>
        hpn ⟨hmem', hc ▸ List.mem_map_of_mem Prod.fst hmem⟩
      rw [stats_kw_get_present row hnd k v hmem hbase hkp hpn']
      simp [writeVal, hkp, hki, hks]

/-- Witness for C4 at a row with an unrecognized column. -/
theorem claim_C4_witness :
    dictGet (make_stats_kw [("Team", some " Hurst "), ("FirstName", some "J")])
        "Team" = some (.strF (pyStrip (pyOrEmpty (some " Hurst ")))) :=
  claim_C4.2 [("Team", some " Hurst "), ("FirstName", some "J")] (by decide)
    (by decide) "Team" (some " Hurst ") (by decide) (by decide) (by decide)
    (by decide)

/-! ## C8: link discovery -/

/-- Modelled from the spec's words: deduplication "by exact string match
(first occurrence wins)" — keep each first occurrence, drop its later
duplicates. -/
def dedupFirstOcc : List String → List String
  | [] => []
  | x :: l => x :: dedupFirstOcc (l.filter fun y => decide (y ≠ x))
termination_by l => l.length
decreasing_by
  simp only [List.length_cons]
  exact Nat.lt_succ_of_le (List.length_filter_le _ _)

/-- The profile-link candidates of a roster document, in document order:
anchors carrying a href containing the roster-path substring, made
absolute. -/
def link_candidates (anchors : List (Option String)) : List String :=
  ((anchors.filterMap id).filter fun h => hasInfix rosterPat h.data).map absolutize

/-- The shared append-if-new accumulation of both gather loops. -/
def dedupGo (acc : List String) (l : List String) : List String :=
  l.foldl (fun hrefs href => if href ∈ hrefs then hrefs else hrefs ++ [href]) acc

lemma dedupGo_cons (acc : List String) (x : String) (l : List String) :
    dedupGo acc (x :: l) = dedupGo (if x ∈ acc then acc else acc ++ [x]) l := rfl

lemma dedupFirstOcc_nil : dedupFirstOcc [] = [] := by
  rw [dedupFirstOcc.eq_def]

lemma dedupFirstOcc_cons (x : String) (l : List String) :
    dedupFirstOcc (x :: l) =
      x :: dedupFirstOcc (l.filter fun y => decide (y ≠ x)) := by
  rw [dedupFirstOcc.eq_def]

lemma hasInfix_nil_false : hasInfix rosterPat [] = false := by decide

lemma selected_eq (anchors : List (Option String)) :
    (anchors.filterMap fun h? =>
      match h? with
      | some h => if hasInfix rosterPat h.data then some h else none
      | none => none) =
    (anchors.filterMap id).filter fun h => hasInfix rosterPat h.data := by
  induction anchors with
  | nil => rfl
  | cons a rest ih =>
    cases a with
    | none => simpa [List.filterMap_cons] using ih
    | some h =>
      by_cases hi : hasInfix rosterPat h.data <;>
        simp [List.filterMap_cons, List.filter_cons, hi, ih]

lemma pw_fold_eq (l : List String) (acc : List String)
    (hl : ∀ h ∈ l, hasInfix rosterPat h.data = true) :
    l.foldl
      (fun hrefs href =>
        if href = "" then hrefs
        else
          let href := absolutize href
          if href ∈ hrefs then hrefs else hrefs ++ [href])
      acc = dedupGo acc (l.map absolutize) := by
  induction l generalizing acc with
  | nil => rfl
  | cons h t ih =>
    have hne : h ≠ "" := by
      intro hc
      subst hc
      exact absurd (hl "" (by simp)) (by simp [hasInfix_nil_false])
    simp only [List.foldl_cons, if_neg hne, List.map_cons, dedupGo]
    exact ih _ fun x hx => hl x (List.mem_cons_of_mem _ hx)

lemma ne_roster_of_infix {h : String} (hi : hasInfix rosterPat h.data = true) :
    h ≠ ROSTER_REL ∧ h ≠ ROSTER_URL := by
  constructor <;> intro hc <;> subst hc <;> exact absurd hi (by decide)

lemma rq_fold_eq (l : List String) (acc : List String) :
    l.foldl
      (fun hrefs href =>
        if hasInfix rosterPat href.data = true ∧ href ≠ ROSTER_REL ∧ href ≠ ROSTER_URL
        then
          let href := absolutize href
          if href ∈ hrefs then hrefs else hrefs ++ [href]
        else hrefs)
      acc =
    dedupGo acc ((l.filter fun h => hasInfix rosterPat h.data).map absolutize) := by
  induction l generalizing acc with
  | nil => rfl
  | cons h t ih =>
    by_cases hi : hasInfix rosterPat h.data = true
    · obtain ⟨h₁, h₂⟩ := ne_roster_of_infix hi
      have hfe : List.filter (fun x => hasInfix rosterPat x.data) (h :: t) =
          h :: List.filter (fun x => hasInfix rosterPat x.data) t := by
        simp [List.filter_cons, hi]
      rw [List.foldl_cons, if_pos ⟨hi, h₁, h₂⟩, hfe, List.map_cons, dedupGo_cons]
      exact ih _
    · have hb : hasInfix rosterPat h.data = false := by
        cases hq : hasInfix rosterPat h.data
        · rfl
        · exact absurd hq hi
      have hfe : List.filter (fun x => hasInfix rosterPat x.data) (h :: t) =
          List.filter (fun x => hasInfix rosterPat x.data) t := by
        simp [List.filter_cons, hb]
      rw [List.foldl_cons, if_neg fun hc => hi hc.1, hfe]
      exact ih acc

lemma gather_pw_eq (anchors : List (Option String)) :
    gather_profile_links_pw anchors = dedupGo [] (link_candidates anchors) := by
  unfold gather_profile_links_pw link_candidates
  rw [selected_eq]
  exact pw_fold_eq _ [] fun h hh => (List.mem_filter.1 hh).2

lemma gather_rq_eq (anchors : List (Option String)) :
    gather_profile_links_rq anchors = dedupGo [] (link_candidates anchors) := by
  unfold gather_profile_links_rq link_candidates
  exact rq_fold_eq _ []

lemma dedupGo_eq (l : List String) :
    ∀ acc, dedupGo acc l = acc ++ dedupFirstOcc (l.filter fun y => decide (y ∉ acc)) := by
  induction l with
  | nil =>
    intro acc
    simp [dedupGo, dedupFirstOcc_nil]
  | cons x t ih =>
    intro acc
    rw [dedupGo_cons]
    by_cases hx : x ∈ acc
    · have hfe : List.filter (fun y => decide (y ∉ acc)) (x :: t) =
          List.filter (fun y => decide (y ∉ acc)) t := by
        simp [List.filter_cons, hx]
      rw [if_pos hx, ih acc, hfe]
    · have hfe : List.filter (fun y => decide (y ∉ acc)) (x :: t) =
          x :: List.filter (fun y => decide (y ∉ acc)) t := by
        simp [List.filter_cons, hx]
      rw [if_neg hx, ih (acc ++ [x]), hfe,
        dedupFirstOcc_cons, List.filter_filter]
      have hfc : (t.filter fun y =>
          (decide (y ≠ x) && decide (y ∉ acc))) =
          t.filter fun y => decide (y ∉ acc ++ [x]) := by
        refine List.filter_congr fun y _ => ?_
        by_cases h₁ : y ∈ acc <;> by_cases h₂ : y = x <;>
          simp [h₁, h₂, List.mem_append]
      rw [hfc]
      simp

lemma mem_dFO_aux :
    ∀ (n : ℕ) (l : List String), l.length ≤ n →
      ∀ y, (y ∈ dedupFirstOcc l ↔ y ∈ l) := by
  intro n
  induction n with
  | zero =>
    intro l hl y
    rw [Nat.le_zero, List.length_eq_zero] at hl
    subst hl
    simp [dedupFirstOcc_nil]
  | succ n ih =>
    intro l hl y
    cases l with
    | nil => simp [dedupFirstOcc_nil]
    | cons x t =>
      rw [dedupFirstOcc_cons]
      have hlen : (t.filter fun y => decide (y ≠ x)).length ≤ n :=
        le_trans (List.length_filter_le _ _) (Nat.le_of_succ_le_succ hl)
      by_cases hyx : y = x
      · simp [hyx]
      · simp only [List.mem_cons, hyx, false_or]
        rw [ih _ hlen y]
        simp [List.mem_filter, hyx]

lemma mem_dedupFirstOcc (l : List String) (y : String) :
    y ∈ dedupFirstOcc l ↔ y ∈ l :=
  mem_dFO_aux l.length l le_rfl y

lemma nodup_dFO_aux :
    ∀ (n : ℕ) (l : List String), l.length ≤ n → (dedupFirstOcc l).Nodup := by
  intro n
  induction n with
  | zero =>
    intro l hl
    rw [Nat.le_zero, List.length_eq_zero] at hl
    subst hl
    simp [dedupFirstOcc_nil]
  | succ n ih =>
    intro l hl
    cases l with
    | nil => simp [dedupFirstOcc_nil]
    | cons x t =>
      rw [dedupFirstOcc_cons]
      have hlen : (t.filter fun y => decide (y ≠ x)).length ≤ n :=
        le_trans (List.length_filter_le _ _) (Nat.le_of_succ_le_succ hl)
      refine List.nodup_cons.2 ⟨fun hc => ?_, ih _ hlen⟩
      have := (mem_dedupFirstOcc _ x).1 hc
      simp [List.mem_filter] at this

lemma nodup_dedupFirstOcc (l : List String) : (dedupFirstOcc l).Nodup :=
  nodup_dFO_aux l.length l le_rfl

lemma gather_pw_dFO (anchors : List (Option String)) :
    gather_profile_links_pw anchors = dedupFirstOcc (link_candidates anchors) := by
  rw [gather_pw_eq, dedupGo_eq]
  have : ((link_candidates anchors).filter fun y =>
      decide (y ∉ ([] : List String))) = link_candidates anchors := by
    refine List.filter_eq_self.2 fun a _ => by simp
  rw [this]
  rfl

lemma data_append (a b : String) : (a ++ b).data = a.data ++ b.data := rfl

lemma candidates_not_roster (anchors : List (Option String)) (u : String)
    (hu : u ∈ link_candidates anchors) : u ≠ ROSTER_URL ∧ u ≠ ROSTER_REL := by
  obtain ⟨h, hh, rfl⟩ := List.mem_map.1 hu
  have hi : hasInfix rosterPat h.data = true := (List.mem_filter.1 hh).2
  unfold absolutize
  by_cases st : startsWithStr h "/" = true
  · rw [if_pos st]
    constructor <;> intro hc
    · have hdat : SITE_ORIGIN.data ++ h.data = SITE_ORIGIN.data ++ ROSTER_REL.data :=
        (data_append SITE_ORIGIN h) ▸ congrArg String.data hc
      have hdr : h.data = ROSTER_REL.data := List.append_cancel_left hdat
      rw [hdr] at hi
      exact absurd hi (by decide)
    · have hpre : SITE_ORIGIN.data <+: ROSTER_REL.data :=
        ⟨h.data, by rw [← data_append]; exact congrArg String.data hc⟩
      have : SITE_ORIGIN.data.isPrefixOf ROSTER_REL.data = true :=
        List.isPrefixOf_iff_prefix.2 hpre
      exact absurd this (by decide)
  · rw [if_neg st]
    constructor <;> intro hc <;> rw [hc] at hi <;> exact absurd hi (by decide)

/-- C8: both link discoverers return the same ordered list: the anchors
whose href contains the roster-path substring, each made absolute by
prefixing the site origin when relative (leading `"/"`), deduplicated by
exact string match with the first occurrence winning, and never containing
the bare roster URL (absolute or relative form). -/
theorem claim_C8 (anchors : List (Option String)) :
    gather_profile_links_pw anchors = gather_profile_links_rq anchors ∧
    gather_profile_links_pw anchors = dedupFirstOcc (link_candidates anchors) ∧
    (gather_profile_links_pw anchors).Nodup ∧
    (∀ u, u ∈ gather_profile_links_pw anchors ↔ u ∈ link_candidates anchors) ∧
    (∀ h, some h ∈ anchors → hasInfix rosterPat h.data = true →
      startsWithStr h "/" = true →
      (SITE_ORIGIN ++ h) ∈ gather_profile_links_pw anchors) ∧
    ROSTER_URL ∉ gather_profile_links_pw anchors ∧
    ROSTER_REL ∉ gather_profile_links_pw anchors := by
  have hmem : ∀ u, u ∈ gather_profile_links_pw anchors ↔ u ∈ link_candidates anchors := by
    intro u
    rw [gather_pw_dFO, mem_dedupFirstOcc]
  refine ⟨?_, gather_pw_dFO anchors, ?_, hmem, ?_, ?_, ?_⟩
  · rw [gather_pw_eq, gather_rq_eq]
  · rw [gather_pw_dFO]
    exact nodup_dedupFirstOcc _
  · intro h hh hi st
    refine (hmem _).2 ?_
    have h₁ : h ∈ anchors.filterMap id := List.mem_filterMap.2 ⟨some h, hh, rfl⟩
    have h₂ : h ∈ (anchors.filterMap id).filter fun x => hasInfix rosterPat x.data :=
      List.mem_filter.2 ⟨h₁, hi⟩
    have h₃ := List.mem_map_of_mem absolutize h₂
    rwa [show absolutize h = SITE_ORIGIN ++ h from by unfold absolutize; rw [if_pos st]]
      at h₃
  · intro hc
    exact absurd rfl (candidates_not_roster anchors _ ((hmem _).1 hc)).1
  · intro hc
    exact absurd rfl (candidates_not_roster anchors _ ((hmem _).1 hc)).2

/-- Witness for C8 at a roster page with duplicate absolute/relative hrefs
and an unrelated link. -/
theorem claim_C8_witness :
    ("https://hurstathletics.com" ++ "/sports/mens-ice-hockey/roster/jane-doe") ∈
      gather_profile_links_pw
        [some "https://hurstathletics.com/sports/mens-ice-hockey/roster/jane-doe",
         some "/sports/mens-ice-hockey/roster/jane-doe", some "/other",
         some "/sports/mens-ice-hockey/roster", none] :=
  (claim_C8
    [some "https://hurstathletics.com/sports/mens-ice-hockey/roster/jane-doe",
     some "/sports/mens-ice-hockey/roster/jane-doe", some "/other",
     some "/sports/mens-ice-hockey/roster", none]).2.2.2.2.1
    "/sports/mens-ice-hockey/roster/jane-doe" (by decide) (by decide) (by decide)

/-! ## C9: the field normalizer -/

lemma splitAux_good :
    ∀ (l acc : List Char), (∀ c ∈ acc, pyIsSpace c = false) →
      ∀ t ∈ pySplitAux l acc, t ≠ [] ∧ ∀ c ∈ t, pyIsSpace c = false := by
  intro l
  induction l with
  | nil =>
    intro acc hacc t ht
    cases acc with
    | nil => cases ht
    | cons a as =>
      rw [show pySplitAux [] (a :: as) = [(a :: as).reverse] from rfl] at ht
      obtain rfl := List.mem_singleton.1 ht
      refine ⟨by simp, fun c hc => hacc c (List.mem_reverse.1 hc)⟩
  | cons c cs ih =>
    intro acc hacc t ht
    by_cases hc : pyIsSpace c = true
    · by_cases ha : acc = []
      · subst ha
        simp only [pySplitAux, hc, if_true, if_pos rfl] at ht
        exact ih [] (by simp) t ht
      · simp only [pySplitAux, hc, if_true, if_neg ha, List.mem_cons] at ht
        rcases ht with rfl | ht
        · refine ⟨by simpa using ha, fun x hx => hacc x (List.mem_reverse.1 hx)⟩
        · exact ih [] (by simp) t ht
    · have hcf : pyIsSpace c = false := by
        cases h : pyIsSpace c
        · rfl
        · exact absurd h hc
      simp only [pySplitAux, hcf, Bool.false_eq_true, if_false] at ht
      refine ih (c :: acc) ?_ t ht
      intro x hx
      rcases List.mem_cons.1 hx with rfl | hx
      · exact hcf
      · exact hacc x hx

lemma splitAux_flatten :
    ∀ (l acc : List Char),
      (pySplitAux l acc).flatten = acc.reverse ++ l.filter (fun c => !pyIsSpace c) := by
  intro l
  induction l with
  | nil =>
    intro acc
    cases acc with
    | nil => rfl
    | cons a as => simp [show pySplitAux [] (a :: as) = [(a :: as).reverse] from rfl]
  | cons c cs ih =>
    intro acc
    by_cases hc : pyIsSpace c = true
    · by_cases ha : acc = []
      · subst ha
        simp [pySplitAux, hc, List.filter_cons, ih]
      · simp [pySplitAux, hc, ha, List.filter_cons, ih]
    · have hcf : pyIsSpace c = false := by
        cases h : pyIsSpace c
        · rfl
        · exact absurd h hc
      simp [pySplitAux, hcf, List.filter_cons, ih (c :: acc), List.append_assoc]

lemma tokens_good (l : List Char) :
    ∀ t ∈ pySplitL l, t ≠ [] ∧ ∀ c ∈ t, pyIsSpace c = false :=
  splitAux_good l [] (by simp)

lemma splitL_flatten (l : List Char) :
    (pySplitL l).flatten = l.filter (fun c => !pyIsSpace c) := by
  simpa using splitAux_flatten l []

lemma joinSp_ne_nil :
    ∀ ts : List (List Char), (∀ t ∈ ts, t ≠ []) → ts ≠ [] → joinSp ts ≠ [] := by
  intro ts hts hne
  cases ts with
  | nil => exact absurd rfl hne
  | cons t ts' =>
    cases ts' with
    | nil => exact hts t (by simp)
    | cons t₂ ts'' => simp [joinSp]

lemma joinSp_head?_nonws :
    ∀ ts : List (List Char),
      (∀ t ∈ ts, t ≠ [] ∧ ∀ c ∈ t, pyIsSpace c = false) →
      ∀ c, (joinSp ts).head? = some c → pyIsSpace c = false := by
  intro ts hts c hc
  cases ts with
  | nil => cases hc
  | cons t ts' =>
    have ht := hts t (by simp)
    obtain ⟨a, t', rfl⟩ : ∃ a t', t = a :: t' := by
      cases t with
      | nil => exact absurd rfl ht.1
      | cons a t' => exact ⟨a, t', rfl⟩
    cases ts' with
    | nil =>
      have hca : a = c := by simpa [joinSp] using hc
      exact hca ▸ ht.2 a (by simp)
    | cons t₂ ts'' =>
      have hca : a = c := by simpa [joinSp, List.cons_append] using hc
      exact hca ▸ ht.2 a (by simp)

lemma joinSp_getLast?_nonws :
    ∀ ts : List (List Char),
      (∀ t ∈ ts, t ≠ [] ∧ ∀ c ∈ t, pyIsSpace c = false) →
      ∀ c, (joinSp ts).getLast? = some c → pyIsSpace c = false := by
  intro ts
  induction ts with
  | nil =>
    intro _ c hc
    cases hc
  | cons t ts' ih =>
    intro hts c hc
    cases ts' with
    | nil =>
      have hmem : c ∈ t := List.mem_of_mem_getLast? (Option.mem_def.2 hc)
      exact (hts t (by simp)).2 c hmem
    | cons t₂ ts'' =>
      have hsub : ∀ x ∈ t₂ :: ts'', x ≠ [] ∧ ∀ c ∈ x, pyIsSpace c = false :=
        fun x hx => hts x (List.mem_cons_of_mem _ hx)
      rw [show joinSp (t :: t₂ :: ts'') = t ++ ' ' :: joinSp (t₂ :: ts'') from rfl,
        List.getLast?_append_of_ne_nil _ (by simp)] at hc
      have hnn : joinSp (t₂ :: ts'') ≠ [] :=
        joinSp_ne_nil _ (fun x hx => (hsub x hx).1) (by simp)
      obtain ⟨x, xs, hxx⟩ : ∃ x xs, joinSp (t₂ :: ts'') = x :: xs := by
        cases hjj : joinSp (t₂ :: ts'') with
        | nil => exact absurd hjj hnn
        | cons x xs => exact ⟨x, xs, rfl⟩
      rw [hxx, List.getLast?_cons_cons] at hc
      exact ih hsub c (by rw [hxx]; exact hc)

lemma joinSp_ws_space :
    ∀ ts : List (List Char),
      (∀ t ∈ ts, t ≠ [] ∧ ∀ c ∈ t, pyIsSpace c = false) →
      ∀ c ∈ joinSp ts, pyIsSpace c = true → c = ' ' := by
  intro ts
  induction ts with
  | nil =>
    intro _ c hc
    cases hc
  | cons t ts' ih =>
    intro hts c hc hw
    cases ts' with
    | nil => exact absurd hw (by simp [(hts t (by simp)).2 c hc])
    | cons t₂ ts'' =>
      rw [show joinSp (t :: t₂ :: ts'') = t ++ ' ' :: joinSp (t₂ :: ts'') from rfl] at hc
      rcases List.mem_append.1 hc with hct | hcr
      · exact absurd hw (by simp [(hts t (by simp)).2 c hct])
      · rcases List.mem_cons.1 hcr with rfl | hcr
        · rfl
        · exact ih (fun x hx => hts x (List.mem_cons_of_mem _ hx)) c hcr hw

lemma chain'_of_nonws :
    ∀ l : List Char, (∀ c ∈ l, pyIsSpace c = false) →
      l.Chain' fun a b => pyIsSpace a = false ∨ pyIsSpace b = false := by
  intro l
  induction l with
  | nil => intro _; simp
  | cons a t ih =>
    intro h
    exact List.chain'_cons'.2 ⟨fun y _ => Or.inl (h a (by simp)),
      ih fun c hc => h c (List.mem_cons_of_mem _ hc)⟩

lemma joinSp_chain' :
    ∀ ts : List (List Char),
      (∀ t ∈ ts, t ≠ [] ∧ ∀ c ∈ t, pyIsSpace c = false) →
      (joinSp ts).Chain' fun a b => pyIsSpace a = false ∨ pyIsSpace b = false := by
  intro ts
  induction ts with
  | nil =>
    intro _
    simp [joinSp]
  | cons t ts' ih =>
    intro hts
    cases ts' with
    | nil => exact chain'_of_nonws t (hts t (by simp)).2
    | cons t₂ ts'' =>
      have hsub : ∀ x ∈ t₂ :: ts'', x ≠ [] ∧ ∀ c ∈ x, pyIsSpace c = false :=
        fun x hx => hts x (List.mem_cons_of_mem _ hx)
      rw [show joinSp (t :: t₂ :: ts'') = t ++ ' ' :: joinSp (t₂ :: ts'') from rfl]
      refine List.chain'_append.2 ⟨chain'_of_nonws t (hts t (by simp)).2, ?_, ?_⟩
      · refine List.chain'_cons'.2 ⟨?_, ih hsub⟩
        intro y hy
        exact Or.inr (joinSp_head?_nonws _ hsub y (Option.mem_def.1 hy))
      · intro x hx y _
        exact Or.inl ((hts t (by simp)).2 x (List.mem_of_mem_getLast? hx))

lemma joinSp_filter :
    ∀ ts : List (List Char),
      (∀ t ∈ ts, t ≠ [] ∧ ∀ c ∈ t, pyIsSpace c = false) →
      (joinSp ts).filter (fun c => !pyIsSpace c) = ts.flatten := by
  intro ts
  induction ts with
  | nil => intro _; rfl
  | cons t ts' ih =>
    intro hts
    have hself : t.filter (fun c => !pyIsSpace c) = t :=
      List.filter_eq_self.2 fun c hc => by simp [(hts t (by simp)).2 c hc]
    cases ts' with
    | nil => simp [joinSp, List.flatten, hself]
    | cons t₂ ts'' =>
      have hsub : ∀ x ∈ t₂ :: ts'', x ≠ [] ∧ ∀ c ∈ x, pyIsSpace c = false :=
        fun x hx => hts x (List.mem_cons_of_mem _ hx)
      rw [show joinSp (t :: t₂ :: ts'') = t ++ ' ' :: joinSp (t₂ :: ts'') from rfl,
        List.filter_append, hself, List.filter_cons]
      simp only [show (!pyIsSpace ' ') = false from by decide, Bool.false_eq_true,
        if_false]
      rw [ih hsub]
      simp [List.flatten_cons]

lemma dropWhile_eq_self_of_head (l : List Char)
    (h : ∀ c, l.head? = some c → pyIsSpace c = false) :
    l.dropWhile pyIsSpace = l := by
  cases l with
  | nil => rfl
  | cons a t => simp [List.dropWhile_cons, h a rfl]

lemma pyStripL_eq_self (l : List Char)
    (hh : ∀ c, l.head? = some c → pyIsSpace c = false)
    (hl : ∀ c, l.getLast? = some c → pyIsSpace c = false) :
    pyStripL l = l := by
  unfold pyStripL
  rw [dropWhile_eq_self_of_head l hh,
    dropWhile_eq_self_of_head l.reverse
      (fun c hc => hl c (by rwa [List.head?_reverse] at hc)),
    List.reverse_reverse]

lemma filter_replaceNbsp (l : List Char) :
    (pyReplaceNbsp l).filter (fun c => !pyIsSpace c) =
      l.filter (fun c => !pyIsSpace c) := by
  induction l with
  | nil => rfl
  | cons c t ih =>
    by_cases hc : c = ' '
    · subst hc
      simp only [pyReplaceNbsp, List.map_cons, if_pos rfl, List.filter_cons]
      simp only [show (!pyIsSpace ' ') = false from by decide,
        show (!pyIsSpace ' ') = false from by decide, Bool.false_eq_true, if_false]
      exact ih
    · simp only [pyReplaceNbsp, List.map_cons, if_neg hc, List.filter_cons]
      rw [show List.filter (fun c => !pyIsSpace c) (List.map
        (fun c => if c = ' ' then ' ' else c) t) = t.filter (fun c => !pyIsSpace c)
        from ih]

/-- C9: the normalizer (identical in both scrapers) is a total function on
strings whose output has every whitespace character equal to an ordinary
space, no two adjacent whitespace characters, no leading or trailing
whitespace, and exactly the input's non-whitespace characters in order —
i.e. all whitespace runs, non-breaking spaces included, collapse to single
spaces and the ends are trimmed. -/
theorem claim_C9 (s : String) :
    normalize s = normalizeRQ s ∧
    (∀ c ∈ (normalize s).data, pyIsSpace c = true → c = ' ') ∧
    ((normalize s).data.Chain' fun a b =>
      pyIsSpace a = false ∨ pyIsSpace b = false) ∧
    (∀ c, (normalize s).data.head? = some c → pyIsSpace c = false) ∧
    (∀ c, (normalize s).data.getLast? = some c → pyIsSpace c = false) ∧
    (normalize s).data.filter (fun c => !pyIsSpace c) =
      s.data.filter (fun c => !pyIsSpace c) := by
  have hts := tokens_good (pyReplaceNbsp s.data)
  have hdata : (normalize s).data =
      pyStripL (joinSp (pySplitL (pyReplaceNbsp s.data))) := rfl
  have hstrip : pyStripL (joinSp (pySplitL (pyReplaceNbsp s.data))) =
      joinSp (pySplitL (pyReplaceNbsp s.data)) :=
    pyStripL_eq_self _ (joinSp_head?_nonws _ hts) (joinSp_getLast?_nonws _ hts)
  have hdata' : (normalize s).data = joinSp (pySplitL (pyReplaceNbsp s.data)) :=
    hdata.trans hstrip
  refine ⟨?_, ?_, ?_, ?_, ?_, ?_⟩
  · unfold normalizeRQ
    by_cases hs : s = ""
    · subst hs
      rfl
    · rw [if_neg hs]
  · intro c hc hw
    rw [hdata'] at hc
    exact joinSp_ws_space _ hts c hc hw
  · rw [hdata']
    exact joinSp_chain' _ hts
  · intro c hc
    rw [hdata'] at hc
    exact joinSp_head?_nonws _ hts c hc
  · intro c hc
    rw [hdata'] at hc
    exact joinSp_getLast?_nonws _ hts c hc
  · rw [hdata', joinSp_filter _ hts, splitL_flatten, filter_replaceNbsp]

/-- Witness for C9 at a string with padding, a run of blanks and a
non-breaking space. -/
theorem claim_C9_witness :
    normalize " Jane  Doe " = normalizeRQ " Jane  Doe " ∧
    ∀ c, (normalize " Jane  Doe ").data.head? = some c → pyIsSpace c = false :=
  ⟨(claim_C9 " Jane  Doe ").1, (claim_C9 " Jane  Doe ").2.2.2.1⟩

end HurstHockey
